import Mathlib

/-!
Shallow embedding of the go-requests HTTP client library
(CareyWang/go-requests): option-based request builder (options.go),
request state and URL composition (request.go), dispatch and transport
configuration (httpclient.go), session defaults (session.go), the
response wrapper with cached body materialization (response.go), and the
error taxonomy (errors.go).

Go's mutable builder is embedded as explicit state passing over a
`Request` structure; `sync.Once` on the response wrapper becomes an
explicit `onceDone` flag with the body stream modelled as a state
carrying a read counter and a closed flag; Go errors with `%w` wrapping
become an inductive `GoErr` with an `errorsIs` chain walk mirroring
`errors.Is`.
-/

namespace GoRequests

/-- Model of Go error values used by the library.  The sentinel errors of
errors.go are constructors; `fmt.Errorf("%w: %v", target, cause)` is
`wrap target cause` (unwrapping to `target` only, as `%w` does); opaque
errors produced by the standard library (`json.Marshal`, `url.Parse`,
`io.ReadAll` failures, `json.Unmarshal` failures) are constructors
carrying their message. -/
inductive GoErr where
  | errRequest
  | errNetwork
  | errTimeout
  | errStatus
  | errResponse
  | errResponseNil
  | errNoContent
  | marshalErr (msg : String)
  | parseErr (msg : String)
  | readErr (msg : String)
  | decodeErr (msg : String)
  | wrap (target : GoErr) (cause : GoErr)
  deriving DecidableEq, Repr

/-- Embedding of `errors.Is e target`: an error matches if it equals the
target or its `%w`-unwrap chain reaches the target. -/
def errorsIs : GoErr → GoErr → Bool
  | e, t =>
    if e = t then true
    else match e with
      | .wrap tgt _ => errorsIs tgt t
      | _ => false

/-- Embedding of `net/http`.Header restricted to what the library uses: a
map from header name to list of values, as an association list with
distinct keys (Go's map).  Canonicalization of MIME keys is the identity
on the already-canonical names the library writes. -/
abbrev Headers := List (String × List String)

/-- Embedding of `http.Header.Set`: replace the key's values with the
single given value. -/
def hSet (k v : String) (h : Headers) : Headers :=
  h.filter (fun p => p.1 ≠ k) ++ [(k, [v])]

/-- Embedding of `http.Header.Get`: first value for the key, or "" when
absent (also the behavior of `Get` on a nil map). -/
def hGet (k : String) (h : Headers) : String :=
  match h.find? (fun p => p.1 = k) with
  | some (_, v :: _) => v
  | _ => ""

/-- Values stored under a key (Go `http.Header[k]` / `url.Values[k]`). -/
def hValues (k : String) (h : Headers) : List String :=
  match h.find? (fun p => p.1 = k) with
  | some (_, vs) => vs
  | none => []

/-- Embedding of `url.Values` as used through `Add`/`Encode`: a flat list
of key/value pairs in insertion order.  Per-key value order is the
insertion order, exactly as Go's `map[string][]string` with `Add`
appending to the key's slice; cross-key order is irrelevant because
`Encode` sorts keys. -/
abbrev Values := List (String × String)

/-- Embedding of `url.Values.Add k v`: append the pair. -/
def qAdd (k v : String) (q : Values) : Values := q ++ [(k, v)]

/-- Values recorded for a key, in insertion order (Go `q[k]`). -/
def getVals (q : Values) (k : String) : List String :=
  q.filterMap (fun p => if p.1 = k then some p.2 else none)

/-- Split a character list at every occurrence of the separator
(`strings.Split` on one-character separators, the only ones the library
uses). -/
def splitOnChar (c : Char) : List Char → List (List Char)
  | [] => [[]]
  | x :: xs =>
    match splitOnChar c xs with
    | [] => [[x]]
    | s :: rest => if x = c then [] :: s :: rest else (x :: s) :: rest

/-- Cut a character list at the first occurrence of the separator
(`strings.Cut`): the part before and the part after, or `none` when the
separator does not occur. -/
def cutAtChar (c : Char) : List Char → Option (List Char × List Char)
  | [] => none
  | x :: xs =>
    if x = c then some ([], xs)
    else match cutAtChar c xs with
      | none => none
      | some (a, b) => some (x :: a, b)

/-- Cut of a `k=v` query segment at the first `=` (Go `strings.Cut`: no
`=` means an empty value); empty segments are skipped by the caller. -/
def parseSegment (seg : String) : Option (String × String) :=
  if seg = "" then none
  else match cutAtChar '=' seg.data with
    | none => some (seg, "")
    | some (k, v) => some (String.mk k, String.mk v)

/-- Embedding of `url.ParseQuery` on the library's domain: split on `&`,
skip empty segments, cut each segment at the first `=`;
percent-unescaping is the identity on the unescaped alphabet the claims
use. -/
def parseQuery (s : String) : Values :=
  if s = "" then []
  else ((splitOnChar '&' s.data).map (fun l => String.mk l)).filterMap parseSegment

/-- Distinct keys of a values list, first occurrence order. -/
def qKeys (q : Values) : List String := (q.map (fun p => p.1)).dedup

/-- Byte-lexicographic comparison of character lists, mirroring Go's
`<` on strings over the claims' single-byte alphabet. -/
def charListLe : List Char → List Char → Bool
  | [], _ => true
  | _ :: _, [] => false
  | a :: as, b :: bs =>
    if a.toNat < b.toNat then true
    else if b.toNat < a.toNat then false
    else charListLe as bs

/-- Go string comparison used by `sort.Strings` inside `Values.Encode`. -/
def strLe (a b : String) : Bool := charListLe a.data b.data

/-- Insert a key into an already sorted key list. -/
def insertSortedStr (k : String) : List String → List String
  | [] => [k]
  | x :: xs => if strLe k x then k :: x :: xs else x :: insertSortedStr k xs

/-- Insertion sort of a key list (`sort.Strings`). -/
def sortStr (l : List String) : List String := l.foldr insertSortedStr []

/-- Key sequence of an encoding (`url.Values.Encode` sorts the map's
keys before serializing). -/
def encKeys (q : Values) : List String := sortStr (qKeys q)

/-- Embedding of `url.Values.Encode`: keys sorted, each key's values in
insertion order, serialized as `k=v` joined by `&`; percent-escaping is
the identity on the claims' alphabet. -/
def encodeQuery (q : Values) : String :=
  String.intercalate "&"
    ((encKeys q).flatMap (fun k => (getVals q k).map (fun v => k ++ "=" ++ v)))

/-- Embedding of `net/url`.URL restricted to what `buildURL` touches: the
part before the query, and the raw query string. -/
structure URL where
  base : String
  rawQuery : String
  deriving DecidableEq, Repr

/-- Embedding of `url.Parse` on the library's domain of well-formed
targets: cut at the first `?` into base and raw query.  (Parse failures
on malformed targets feed the same request-build error path as the
builder's error slot; no claim depends on which strings fail.) -/
def urlParse (s : String) : URL :=
  match cutAtChar '?' s.data with
  | none => ⟨s, ""⟩
  | some (b, q) => ⟨String.mk b, String.mk q⟩

/-- Embedding of `URL.Query()`: parse the raw query string. -/
def URL.query (u : URL) : Values := parseQuery u.rawQuery

/-- Embedding of `URL.String()`: base plus `?`-prefixed raw query when
non-empty. -/
def URL.toString (u : URL) : String :=
  if u.rawQuery = "" then u.base else u.base ++ "?" ++ u.rawQuery

/-- Model of the response body stream (`io.ReadCloser`).  `result` is
what a full `io.ReadAll` of the stream yields: the bytes read (modelled
as a string) together with the read error, if any.  `reads` counts how
many times the stream has been drained and `closed` records `Close`. -/
structure Stream where
  result : String × Option GoErr
  reads : Nat := 0
  closed : Bool := false
  deriving DecidableEq, Repr

/-- Embedding of `io.ReadAll` on the stream: returns the stream's
content and error, incrementing the read counter. -/
def readAll (s : Stream) : (String × Option GoErr) × Stream :=
  (s.result, { s with reads := s.reads + 1 })

/-- Embedding of `Body.Close`. -/
def closeStream (s : Stream) : Stream := { s with closed := true }

/-- Embedding of `http.Response` restricted to the fields the library
reads: status code, headers, body stream (possibly absent). -/
structure RawResponse where
  statusCode : Int
  header : Headers
  body : Option Stream
  deriving DecidableEq, Repr

/-- Embedding of the `Response` wrapper (response.go).  `sync.Once`
becomes the `onceDone` flag; `body`/`bodyErr` are the cached buffer and
error written inside the once block. -/
structure Response where
  raw : Option RawResponse
  statusCode : Int
  headers : Headers
  onceDone : Bool := false
  body : String := ""
  bodyErr : Option GoErr := none
  deriving DecidableEq, Repr

/-- Embedding of `newResponse`: nil in, nil out; otherwise wrap status,
headers and take ownership of the raw response. -/
def newResponse (resp : Option RawResponse) : Option Response :=
  match resp with
  | none => none
  | some r => some { raw := some r, statusCode := r.statusCode, headers := r.header }

/-- Embedding of `Response.Bytes` as a state transformer on the possibly
nil receiver.  Guard clauses return the nil-response error; the
`once.Do` block reads the stream once, closes it via `defer`
unconditionally, and caches bytes and error; every call returns the
cached `r.body, r.bodyErr`. -/
def Response.bytes (r? : Option Response) :
    (String × Option GoErr) × Option Response :=
  match r? with
  | none => (("", some .errResponseNil), none)
  | some r =>
    match r.raw with
    | none => (("", some .errResponseNil), some r)
    | some raw =>
      match raw.body with
      | none => (("", some .errResponseNil), some r)
      | some s =>
        if r.onceDone then
          ((r.body, r.bodyErr), some r)
        else
          let res := readAll s
          let s2 := closeStream res.2
          let r2 : Response :=
            { r with raw := some { raw with body := some s2 },
                     onceDone := true,
                     body := res.1.1,
                     bodyErr := res.1.2 }
          ((r2.body, r2.bodyErr), some r2)

/-- Embedding of `Response.Text`: decode `Bytes` output as a string
(identity in the model), propagating the same error. -/
def Response.text (r? : Option Response) :
    (String × Option GoErr) × Option Response :=
  Response.bytes r?

/-- Embedding of `Response.JSON`.  The target-typed `json.Unmarshal` of
the standard library is a parameter `decode` giving, for each body, the
decode error if any (the code returns it unchanged).  An empty body
returns the no-content error before any decode. -/
def Response.json (decode : String → Option GoErr) (r? : Option Response) :
    Option GoErr × Option Response :=
  let res := Response.bytes r?
  match res.1.2 with
  | some e => (some e, res.2)
  | none =>
    if res.1.1 = "" then (some .errNoContent, res.2)
    else (decode res.1.1, res.2)

/-- Iterate `Response.bytes`, collecting each call's return value. -/
def bytesIter : Nat → Option Response → List (String × Option GoErr) × Option Response
  | 0, r? => ([], r?)
  | n + 1, r? =>
    let res := Response.bytes r?
    let rest := bytesIter n res.2
    (res.1 :: rest.1, rest.2)

/-- Embedding of `http.Cookie` restricted to name and value. -/
structure Cookie where
  name : String
  value : String
  deriving DecidableEq, Repr

/-- Embedding of the `Request` builder state (request.go), one field per
Go field.  `err` is the terminal error slot. -/
structure Request where
  method : String := ""
  url : String := ""
  headers : Option Headers := none
  query : Values := []
  body : Option String := none
  timeout : Int := 0
  cookies : List Cookie := []
  proxy : Option URL := none
  redirectMax : Option Int := none
  decompressGzip : Bool := false
  err : Option GoErr := none
  deriving DecidableEq, Repr

/-- Deep embedding of the option constructors (options.go).  Standard
library calls performed inside a closure on pure data captured at
construction time are embedded as their results: `WithJSON` captures
`json.Marshal v` as an `Except`, `WithForm` captures the map (encoded on
application), `WithProxy` captures `url.Parse rawURL` as an `Except`,
`WithBody` captures the reader's eventual content. -/
inductive Opt where
  | withHeader (key value : String)
  | withHeaders (h : List (String × String))
  | withQuery (q : List (String × String))
  | withTimeout (d : Int)
  | withDecompressGzip
  | withJSON (marshal : Except GoErr String)
  | withForm (values : List (String × String))
  | withBody (body : String)
  | withCookies (cs : List Cookie)
  | withProxy (parse : Except GoErr URL)
  | withRedirect (max : Int)
  deriving Repr

/-- Form encoding of `WithForm`: `form.Set` each pair of the map (unique
keys), then `form.Encode()`. -/
def formEncode (values : List (String × String)) : String :=
  encodeQuery (values.foldl (fun acc p => hFormSet p.1 p.2 acc) [])
where
  /-- Embedding of `url.Values.Set`: replace the key's values. -/
  hFormSet (k v : String) (q : Values) : Values :=
    q.filter (fun p => p.1 ≠ k) ++ [(k, v)]

/-- Embedding of option application: each branch is the body of the
corresponding closure in options.go.  `WithJSON`, `WithForm` and
`WithProxy` no-op when the error slot is set and write it on failure;
no other option touches the slot. -/
def applyOpt (o : Opt) (r : Request) : Request :=
  match o with
  | .withHeader k v =>
    { r with headers := some (hSet k v (r.headers.getD [])) }
  | .withHeaders h =>
    { r with headers := some (h.foldl (fun acc p => hSet p.1 p.2 acc) (r.headers.getD [])) }
  | .withQuery q =>
    { r with query := q.foldl (fun acc p => qAdd p.1 p.2 acc) r.query }
  | .withTimeout d => { r with timeout := d }
  | .withDecompressGzip => { r with decompressGzip := true }
  | .withJSON marshal =>
    if r.err ≠ none then r
    else match marshal with
      | .error e => { r with err := some e }
      | .ok b =>
        let hs := r.headers.getD []
        if hGet "Content-Type" hs = "" then
          { r with body := some b,
                   headers := some (hSet "Content-Type" "application/json" hs) }
        else
          { r with body := some b, headers := some hs }
  | .withForm values =>
    if r.err ≠ none then r
    else
      { r with body := some (formEncode values),
               headers := some (hSet "Content-Type" "application/x-www-form-urlencoded"
                                  (r.headers.getD [])) }
  | .withBody b => { r with body := some b }
  | .withCookies cs => { r with cookies := r.cookies ++ cs }
  | .withProxy parse =>
    if r.err ≠ none then r
    else match parse with
      | .error e => { r with err := some e }
      | .ok u => { r with proxy := some u }
  | .withRedirect max => { r with redirectMax := some max }

/-- Embedding of `newRequest`: fresh builder seeded with method and
target, options folded left-to-right. -/
def newRequest (method rawURL : String) (opts : List Opt) : Request :=
  opts.foldl (fun r o => applyOpt o r) { method := method, url := rawURL }

/-- Embedding of `Request.buildURL`: parse the target; with no additive
query parameters return the parsed URL unchanged; otherwise add every
recorded pair to the parsed existing query and re-encode. -/
def Request.buildURL (r : Request) : URL :=
  let u := urlParse r.url
  if r.query.isEmpty then u
  else
    let q := r.query.foldl (fun acc p => qAdd p.1 p.2 acc) u.query
    { u with rawQuery := encodeQuery q }

/-- Embedding of the per-call `http.Client` configuration produced by
`buildClient`: timeout (zero value unless overridden), the proxy routed
through the transport, and the installed redirect policy.  A custom
`CheckRedirect` closure is installed exactly when a redirect cap is set,
and is fully determined by the captured `max`; `redirectPolicy = none`
means the field stays nil and the transport's default behavior applies. -/
structure Client where
  timeout : Int
  proxy : Option URL
  redirectPolicy : Option Int
  deriving DecidableEq, Repr

/-- Embedding of `buildClient`. -/
def buildClient (r : Request) : Client :=
  { timeout := if r.timeout > 0 then r.timeout else 0
    proxy := r.proxy
    redirectPolicy := r.redirectMax }

/-- Outcome of one `CheckRedirect` consultation.  The installed closure
returns either nil (follow) or `http.ErrUseLastResponse` (stop and
surface the response as-is with no error); it never returns any other
error. -/
inductive RedirectDecision where
  | follow
  | useLast
  deriving DecidableEq, Repr

/-- Embedding of the closure installed by `buildClient` when a cap is
set: `viaLen` is `len(via)`, the number of requests already issued. -/
def checkRedirect (max : Int) (viaLen : Nat) : RedirectDecision :=
  if max ≤ 0 then .useLast
  else if (viaLen : Int) > max then .useLast
  else .follow

/-- Abstract view of one hop of a transport exchange: the response and
whether the client's redirect machinery treats it as a followable
redirect (3xx with a Location header). -/
structure Hop where
  resp : RawResponse
  isRedirect : Bool
  deriving DecidableEq, Repr

/-- Embedding of the redirect-following loop inside `http.Client.Do`
under an installed `CheckRedirect` policy: the chain lists the responses
the server would return hop by hop.  Before following the response at
position i, the client consults the policy with `len(via) = i + 1`; on
`useLast` the current response is returned as-is with no error.  Returns
the surfaced response and the number of redirects followed. -/
def redirectLoop (check : Nat → RedirectDecision) :
    List Hop → Nat → Option (Hop × Nat)
  | [], _ => none
  | h :: rest, viaLen =>
    if h.isRedirect then
      match check viaLen with
      | .useLast => some (h, 0)
      | .follow =>
        match redirectLoop check rest (viaLen + 1) with
        | none => none
        | some (res, n) => some (res, n + 1)
    else some (h, 0)

/-- Transport failures surfaced by `client.Do`, as classified by
`classifyErr`: a deadline/timeout condition or any other transport
error, each carrying the original error. -/
inductive TransportErr where
  | timeout (cause : GoErr)
  | other (cause : GoErr)
  deriving DecidableEq, Repr

/-- Embedding of `classifyErr`: timeout conditions wrap `ErrTimeout`,
everything else wraps `ErrNetwork`. -/
def classifyErr : TransportErr → GoErr
  | .timeout cause => .wrap .errTimeout cause
  | .other cause => .wrap .errNetwork cause

/-- Embedding of the outbound `http.Request` assembled by `do`: method,
composed URL string, body, headers (assigned verbatim when the builder
set any), cookies in append order. -/
structure HttpReq where
  method : String
  url : String
  body : Option String
  header : Headers
  cookies : List Cookie
  deriving DecidableEq, Repr

/-- A network oracle standing for `client.Do`: given the per-call client
configuration and the outbound request, the exchange's outcome. -/
def Transport := Client → HttpReq → Except TransportErr RawResponse

/-- Errors returned by `do`, mirroring its return paths:
request-build errors wrap `ErrRequest`; transport failures go through
`classifyErr`; non-2xx statuses return a `StatusError` carrying the
status code and the wrapper itself (unwrapping to `ErrStatus`). -/
inductive DoErr where
  | goErr (e : GoErr)
  | statusError (statusCode : Int) (response : Response)
  deriving DecidableEq, Repr

/-- Embedding of `errors.Is` on `do` results: `StatusError.Unwrap`
returns `ErrStatus`. -/
def doErrIs : DoErr → GoErr → Bool
  | .goErr e, t => errorsIs e t
  | .statusError _ _, t => errorsIs .errStatus t

/-- Result of a dispatch: the wrapper, the error, and how many outbound
calls were issued (to observe the absence of network I/O). -/
structure DoResult where
  resp : Option Response
  err : Option DoErr
  netCalls : Nat
  deriving DecidableEq, Repr

/-- Body of `do` (httpclient.go) after the builder is folded: a set
error slot fails with a request-build error before any network call;
compose the URL, assemble the outbound request, build the per-call
client, issue the call through the transport oracle, classify transport
failures, and wrap the response — paired with a status error exactly
when the status code is outside [200,300). -/
def dispatchReq (net : Transport) (req : Request) : DoResult :=
  match req.err with
  | some e => { resp := none, err := some (.goErr (.wrap .errRequest e)), netCalls := 0 }
  | none =>
    let u := req.buildURL
    let httpReq : HttpReq :=
      { method := req.method
        url := u.toString
        body := req.body
        header := req.headers.getD []
        cookies := req.cookies }
    let client := buildClient req
    match net client httpReq with
    | .error e => { resp := none, err := some (.goErr (classifyErr e)), netCalls := 1 }
    | .ok resp =>
      let wrapped : Response :=
        { raw := some resp, statusCode := resp.statusCode, headers := resp.header }
      if resp.statusCode < 200 ∨ resp.statusCode ≥ 300 then
        { resp := some wrapped
          err := some (.statusError resp.statusCode wrapped)
          netCalls := 1 }
      else
        { resp := some wrapped, err := none, netCalls := 1 }

/-- Embedding of `do`: fold the options over a fresh builder (the
seeded `method` is also the method of the outbound request, exactly as
in the source), then dispatch. -/
def doDispatch (net : Transport) (method rawURL : String) (opts : List Opt) : DoResult :=
  dispatchReq net (newRequest method rawURL opts)

/-- Embedding of `Session.do` (session.go): defaults are copied at
construction; each call folds defaults first, per-call options after,
over a fresh builder, then delegates to `do`. -/
def sessionDispatch (net : Transport) (defaults : List Opt)
    (method rawURL : String) (opts : List Opt) : DoResult :=
  doDispatch net method rawURL (defaults ++ opts)

/-- Options that can fail, i.e. whose closure can write the terminal
error slot (`WithJSON`, `WithForm`, `WithProxy` — exactly the closures
that begin with the `r.err != nil` guard in options.go). -/
def optCanFail : Opt → Bool
  | .withJSON _ => true
  | .withForm _ => true
  | .withProxy _ => true
  | _ => false

/-- Projection forgetting the gzip-decompression flag, used to state
that no operation reads it. -/
def eraseDG (r : Request) : Request := { r with decompressGzip := false }

/-- The underlying body stream of a possibly nil wrapper. -/
def streamOf (r? : Option Response) : Option Stream :=
  match r? with
  | none => none
  | some r =>
    match r.raw with
    | none => none
    | some raw => raw.body

/-- Number of leading redirect hops of a response chain. -/
def leadingRedirects : List Hop → Nat
  | [] => 0
  | h :: rest => if h.isRedirect then leadingRedirects rest + 1 else 0

/-- Applying any option to a builder whose error slot is set leaves the
slot unchanged: fallible options return early on the guard, the rest
never write the slot. -/
theorem applyOpt_err_preserve (o : Opt) (r : Request) (e : GoErr)
    (h : r.err = some e) : (applyOpt o r).err = some e := by
  cases o <;> simp [applyOpt, h]

/-- Folding any option list over a builder whose error slot is set
leaves the slot unchanged. -/
theorem foldOpts_err_preserve (l : List Opt) (r : Request) (e : GoErr)
    (h : r.err = some e) :
    (l.foldl (fun r o => applyOpt o r) r).err = some e := by
  induction l generalizing r with
  | nil => simpa
  | cons o t ih => exact ih _ (applyOpt_err_preserve o r e h)

/-- C1: for every option sequence, once an option has written the
builder's terminal error slot no later option overwrites it, the
fallible options (`WithJSON`, `WithForm`, `WithProxy`) no-op entirely on
a set slot, and dispatching a builder whose slot is set returns a nil
wrapper together with an error wrapping `ErrRequest` (matched by the
request-build category) without any network call. -/
theorem c1_error_slot_first_wins (e : GoErr) :
    (∀ (o : Opt) (r : Request), r.err = some e → (applyOpt o r).err = some e)
  ∧ (∀ (o : Opt) (r : Request), optCanFail o = true → r.err = some e →
       applyOpt o r = r)
  ∧ (∀ (net : Transport) (method rawURL : String) (opts : List Opt),
       (newRequest method rawURL opts).err = some e →
       doDispatch net method rawURL opts =
         { resp := none
           err := some (.goErr (.wrap .errRequest e))
           netCalls := 0 })
  ∧ doErrIs (.goErr (.wrap .errRequest e)) .errRequest = true := by
  refine ⟨fun o r h => applyOpt_err_preserve o r e h, ?_, ?_, ?_⟩
  · intro o r hf h
    cases o <;> simp_all [optCanFail, applyOpt]
  · intro net method rawURL opts h
    simp [doDispatch, dispatchReq, h]
  · simp [doErrIs, errorsIs]

/-- C1 witness: a failing `WithJSON` poisons the builder, a later header
option leaves the error in place, and dispatch rejects with the
request-build error without calling the transport. -/
theorem c1_error_slot_witness :
    doDispatch (fun _ _ => .error (.other (.parseErr "refused"))) "POST" "u"
        [.withJSON (.error (.marshalErr "unsupported type")), .withHeader "X" "1"]
      = { resp := none
          err := some (.goErr (.wrap .errRequest (.marshalErr "unsupported type")))
          netCalls := 0 } :=
  (c1_error_slot_first_wins (.marshalErr "unsupported type")).2.2.1
    _ "POST" "u" _ (by decide)

/-- C3 counterexample: the claim reads the success band as [200,299), but
a transport response with status 299 — outside [200,299) — is dispatched
with a nil error rather than the claimed status error. -/
theorem c3_interval_counterexample :
    ((299 : Int) < 200 ∨ (299 : Int) ≥ 299)
  ∧ (doDispatch (fun _ _ => .ok { statusCode := 299, header := [], body := none })
       "GET" "http://h/x" []).err = none := by
  decide

/-- C3 amended: for every dispatched call whose transport returns a
response, a final status outside [200,300) yields the non-nil wrapper
together with a structured status error carrying exactly that status
code and that same wrapper (matched by the status category), and a
status inside [200,300) yields the wrapper with a nil error. -/
theorem c3_status_error_pairing (net : Transport) (req : Request) (resp : RawResponse)
    (herr : req.err = none)
    (hnet : net (buildClient req)
        { method := req.method
          url := req.buildURL.toString
          body := req.body
          header := req.headers.getD []
          cookies := req.cookies } = .ok resp) :
    (resp.statusCode < 200 ∨ resp.statusCode ≥ 300 →
       dispatchReq net req =
         { resp := some { raw := some resp, statusCode := resp.statusCode,
                          headers := resp.header }
           err := some (.statusError resp.statusCode
                          { raw := some resp, statusCode := resp.statusCode,
                            headers := resp.header })
           netCalls := 1 })
  ∧ (200 ≤ resp.statusCode ∧ resp.statusCode < 300 →
       dispatchReq net req =
         { resp := some { raw := some resp, statusCode := resp.statusCode,
                          headers := resp.header }
           err := none
           netCalls := 1 })
  ∧ (∀ (c : Int) (w : Response), doErrIs (.statusError c w) .errStatus = true) := by
  refine ⟨?_, ?_, ?_⟩
  · intro hout
    simp [dispatchReq, herr, hnet, if_pos hout]
  · intro hin
    have hnotout : ¬(resp.statusCode < 200 ∨ resp.statusCode ≥ 300) := by omega
    simp [dispatchReq, herr, hnet, if_neg hnotout]
  · intro c w
    simp [doErrIs, errorsIs]

/-- C3 witness: a 400 response is surfaced non-nil together with the
status error carrying code 400 and the same wrapper. -/
theorem c3_status_error_witness :
    dispatchReq (fun _ _ => .ok { statusCode := 400, header := [], body := none })
        { method := "GET", url := "http://h/x" }
      = { resp := some { raw := some { statusCode := 400, header := [], body := none },
                         statusCode := 400, headers := [] }
          err := some (.statusError 400
                         { raw := some { statusCode := 400, header := [], body := none },
                           statusCode := 400, headers := [] })
          netCalls := 1 } :=
  (c3_status_error_pairing (fun _ _ => .ok { statusCode := 400, header := [], body := none })
      { method := "GET", url := "http://h/x" }
      { statusCode := 400, header := [], body := none }
      (by decide) (by rfl)).1 (by decide)

/-- C4: the nil-wrapper, nil-raw and nil-stream guards all return the
nil-response error without crashing, but a failing underlying read is
returned unchanged by `Bytes` — `io.ReadAll`'s error is never wrapped,
so matching it against `ErrResponse` fails, contradicting the claim (and
the repository's own README). -/
theorem c4_read_error_not_response_category :
    (Response.bytes none).1 = ("", some .errResponseNil)
  ∧ (Response.bytes (some { raw := none, statusCode := 0, headers := [] })).1
      = ("", some .errResponseNil)
  ∧ (Response.bytes (some { raw := some { statusCode := 200, header := [], body := none },
                            statusCode := 200, headers := [] })).1
      = ("", some .errResponseNil)
  ∧ (Response.bytes (newResponse (some { statusCode := 200, header := [],
                                         body := some { result := ("", some (.readErr "read failed")) } }))).1
      = ("", some (.readErr "read failed"))
  ∧ errorsIs (.readErr "read failed") .errResponse = false := by
  decide

/-- C5: `JSON` materializes through `Bytes`, an exactly empty body
returns the no-content error without consulting the decoder (the decoder
below would reject ""), but a decode failure on a non-empty body is
returned unchanged — `json.Unmarshal`'s error is never wrapped, so
matching it against `ErrResponse` fails, contradicting the claim (and
the repository's own `TestJSONInvalidBody`). -/
theorem c5_decode_error_not_response_category :
    (Response.json (fun s => some (.decodeErr s))
        (newResponse (some { statusCode := 200, header := [],
                             body := some { result := ("not json", none) } }))).1
      = some (.decodeErr "not json")
  ∧ errorsIs (.decodeErr "not json") .errResponse = false
  ∧ (Response.json (fun s => some (.decodeErr s))
        (newResponse (some { statusCode := 204, header := [],
                             body := some { result := ("", none) } }))).1
      = some .errNoContent := by
  decide

/-- First `Bytes` call on a fresh wrapper with a body stream: reads the
stream once, closes it, caches bytes and error, and returns the cached
pair. -/
theorem bytes_first_call (raw : RawResponse) (s : Stream) (h : raw.body = some s) :
    Response.bytes (newResponse (some raw)) =
      ((s.result.1, s.result.2),
       some { raw := some { raw with
                            body := some { s with reads := s.reads + 1, closed := true } }
              statusCode := raw.statusCode
              headers := raw.header
              onceDone := true
              body := s.result.1
              bodyErr := s.result.2 }) := by
  simp [Response.bytes, newResponse, h, readAll, closeStream]

/-- A `Bytes` call on a wrapper whose once block already ran returns the
cached pair and leaves the wrapper unchanged. -/
theorem bytes_cached_call (r : Response) (raw : RawResponse) (s : Stream)
    (h1 : r.raw = some raw) (h2 : raw.body = some s) (h3 : r.onceDone = true) :
    Response.bytes (some r) = ((r.body, r.bodyErr), some r) := by
  simp [Response.bytes, h1, h2, h3]

/-- Iterating `Bytes` on a settled wrapper returns the cached pair every
time and never touches the state again. -/
theorem bytesIter_settled (m : Nat) (r : Response) (raw : RawResponse) (s : Stream)
    (h1 : r.raw = some raw) (h2 : raw.body = some s) (h3 : r.onceDone = true) :
    bytesIter m (some r) = (List.replicate m (r.body, r.bodyErr), some r) := by
  induction m with
  | zero => simp [bytesIter]
  | succ k ih => simp [bytesIter, bytes_cached_call r raw s h1 h2 h3, ih, List.replicate_succ]

/-- C2: on a wrapper with an underlying body stream, any positive number
of `Bytes` calls performs exactly one read of the stream (the read
counter advances by one), the stream ends closed whether or not the read
produced an error, every call — the first included — returns the same
cached byte buffer and the same cached error, and `Text` is exactly a
`Bytes` call. -/
theorem c2_bytes_read_once (raw : RawResponse) (s : Stream) (h : raw.body = some s)
    (n : Nat) (hn : 1 ≤ n) :
    (bytesIter n (newResponse (some raw))).1
        = List.replicate n (s.result.1, s.result.2)
  ∧ streamOf (bytesIter n (newResponse (some raw))).2
        = some { s with reads := s.reads + 1, closed := true }
  ∧ (∀ r?, Response.text r? = Response.bytes r?) := by
  obtain ⟨m, rfl⟩ : ∃ m, n = m + 1 := ⟨n - 1, by omega⟩
  have hfirst := bytes_first_call raw s h
  have hrest := bytesIter_settled m
    { raw := some { raw with
                    body := some { s with reads := s.reads + 1, closed := true } }
      statusCode := raw.statusCode
      headers := raw.header
      onceDone := true
      body := s.result.1
      bodyErr := s.result.2 }
    { raw with body := some { s with reads := s.reads + 1, closed := true } }
    { s with reads := s.reads + 1, closed := true } rfl rfl rfl
  refine ⟨?_, ?_, fun r? => rfl⟩
  · simp [bytesIter, hfirst, hrest, List.replicate_succ]
  · simp [bytesIter, hfirst, hrest, streamOf]

/-- C2 witness: two `Bytes` calls on a concrete wrapper both return the
same bytes, and afterwards the stream has been read once and closed. -/
theorem c2_bytes_read_once_witness :
    (bytesIter 2 (newResponse (some { statusCode := 200, header := [],
                                      body := some { result := ("hello", none) } }))).1
      = List.replicate 2 ("hello", (none : Option GoErr))
  ∧ streamOf (bytesIter 2 (newResponse (some { statusCode := 200, header := [],
                                               body := some { result := ("hello", none) } }))).2
      = some { result := ("hello", none), reads := 1, closed := true } :=
  ⟨(c2_bytes_read_once { statusCode := 200, header := [],
                         body := some { result := ("hello", none) } }
      { result := ("hello", none) } rfl 2 (by decide)).1,
   (c2_bytes_read_once { statusCode := 200, header := [],
                         body := some { result := ("hello", none) } }
      { result := ("hello", none) } rfl 2 (by decide)).2.1⟩

/-- The installed redirect policy stops exactly when the cap is
non-positive or the via list has outgrown the cap. -/
theorem checkRedirect_stop (N : Int) (f : Nat) (h : N ≤ f) :
    checkRedirect N (f + 1) = .useLast := by
  unfold checkRedirect
  by_cases hN : N ≤ 0
  · rw [if_pos hN]
  · rw [if_neg hN, if_pos (by push_cast; omega)]

/-- The installed redirect policy follows while the cap still has
budget. -/
theorem checkRedirect_go (N : Int) (f : Nat) (h : (f : Int) < N) :
    checkRedirect N (f + 1) = .follow := by
  unfold checkRedirect
  rw [if_neg (by omega), if_neg (by push_cast; omega)]

/-- Characterization of the redirect loop under the installed policy:
starting with `f` redirects already followed, the loop surfaces the hop
at index `min (leading redirects) (remaining budget)` and follows
exactly that many further redirects (`none` when the chain itself is
exhausted first). -/
theorem redirectLoop_formula (N : Int) (chain : List Hop) (f : Nat) :
    redirectLoop (checkRedirect N) chain (f + 1)
      = (chain[min (leadingRedirects chain) ((N - f).toNat)]?).map
          (fun h => (h, min (leadingRedirects chain) ((N - f).toNat))) := by
  induction chain generalizing f with
  | nil => simp [redirectLoop]
  | cons h rest ih =>
    by_cases hr : h.isRedirect
    · by_cases hstop : N ≤ f
      · have h0 : (N - f).toNat = 0 := by omega
        simp [redirectLoop, hr, checkRedirect_stop N f hstop, leadingRedirects, h0]
      · have hgo : checkRedirect N (f + 1) = .follow := checkRedirect_go N f (by omega)
        have htn : (N - f).toNat = (N - (f + 1)).toNat + 1 := by omega
        have hrec : redirectLoop (checkRedirect N) rest (f + 1 + 1)
            = (rest[min (leadingRedirects rest) ((N - (f + 1)).toNat)]?).map
                (fun h => (h, min (leadingRedirects rest) ((N - (f + 1)).toNat))) := ih (f + 1)
        simp only [redirectLoop, hr, if_pos, hgo, hrec, leadingRedirects, htn,
          Nat.succ_min_succ, List.getElem?_cons_succ]
        cases rest[min (leadingRedirects rest) ((N - (f + 1)).toNat)]? <;> simp
    · simp [redirectLoop, hr, leadingRedirects]

/-- C6: a redirect cap installs a per-call policy and no cap leaves the
transport default untouched (the client's redirect-policy slot equals
the builder's cap verbatim); a cap of zero (or below) follows no
redirects and surfaces the first response as-is with no error; a
positive cap N follows `min (leading redirects) N` redirects and
surfaces the hop at that index as-is — in particular at most N are
followed, and on a chain with more than N redirects the surfaced hop is
the first unfollowed one, at index N. -/
theorem c6_redirect_cap_policy :
    (∀ r : Request, (buildClient r).redirectPolicy = r.redirectMax)
  ∧ (∀ (m : Int), m ≤ 0 → ∀ (h : Hop) (rest : List Hop),
       redirectLoop (checkRedirect m) (h :: rest) 1 = some (h, 0))
  ∧ (∀ (N : Int) (chain : List Hop), 0 < N →
       redirectLoop (checkRedirect N) chain 1
         = (chain[min (leadingRedirects chain) N.toNat]?).map
             (fun h => (h, min (leadingRedirects chain) N.toNat)))
  ∧ (∀ (N : Int) (chain : List Hop) (h : Hop) (n : Nat), 0 < N →
       redirectLoop (checkRedirect N) chain 1 = some (h, n) → n ≤ N.toNat)
  ∧ (∀ (N : Int) (chain : List Hop), 0 < N → N.toNat < leadingRedirects chain →
       redirectLoop (checkRedirect N) chain 1
         = (chain[N.toNat]?).map (fun h => (h, N.toNat))) := by
  have hform : ∀ (N : Int) (chain : List Hop),
      redirectLoop (checkRedirect N) chain 1
        = (chain[min (leadingRedirects chain) N.toNat]?).map
            (fun h => (h, min (leadingRedirects chain) N.toNat)) := by
    intro N chain
    have := redirectLoop_formula N chain 0
    simpa using this
  refine ⟨fun r => rfl, ?_, ?_, ?_, ?_⟩
  · intro m hm h rest
    have h0 : m.toNat = 0 := by omega
    rw [hform m (h :: rest), h0]
    simp
  · intro N chain _
    exact hform N chain
  · intro N chain h n _ heq
    rw [hform N chain] at heq
    cases hg : chain[min (leadingRedirects chain) N.toNat]? with
    | none => rw [hg] at heq; simp at heq
    | some x =>
      rw [hg] at heq
      simp at heq
      omega
  · intro N chain _ hk
    rw [hform N chain, Nat.min_eq_right (by omega)]

/-- C6 witness: with cap 1 on a chain of two redirects followed by a
200, exactly one redirect is followed and the second (first unfollowed)
302 hop is surfaced as-is. -/
theorem c6_redirect_cap_policy_witness :
    redirectLoop (checkRedirect 1)
        [⟨{ statusCode := 302, header := [], body := none }, true⟩,
         ⟨{ statusCode := 302, header := [], body := none }, true⟩,
         ⟨{ statusCode := 200, header := [], body := none }, false⟩] 1
      = some (⟨{ statusCode := 302, header := [], body := none }, true⟩, 1) := by
  have h := c6_redirect_cap_policy.2.2.1 1
    [⟨{ statusCode := 302, header := [], body := none }, true⟩,
     ⟨{ statusCode := 302, header := [], body := none }, true⟩,
     ⟨{ statusCode := 200, header := [], body := none }, false⟩] (by decide)
  exact h.trans (by decide)

/-- Folding `Add` over a pair list appends the pairs in order. -/
theorem foldl_qAdd (l : List (String × String)) (acc : Values) :
    l.foldl (fun acc p => qAdd p.1 p.2 acc) acc = acc ++ l := by
  induction l generalizing acc with
  | nil => simp
  | cons p t ih => rw [List.foldl_cons, ih]; simp [qAdd]

/-- The byte-lexicographic comparison is total. -/
theorem charListLe_total (a b : List Char) :
    charListLe a b = true ∨ charListLe b a = true := by
  induction a generalizing b with
  | nil => left; rfl
  | cons x xs ih =>
    cases b with
    | nil => right; rfl
    | cons y ys =>
      by_cases hxy : x.toNat < y.toNat
      · left; simp [charListLe, hxy]
      · by_cases hyx : y.toNat < x.toNat
        · right; simp [charListLe, hyx]
        · rcases ih ys with h | h
          · left; simp [charListLe, hxy, hyx, h]
          · right; simp [charListLe, hxy, hyx, h]

/-- The byte-lexicographic comparison is transitive. -/
theorem charListLe_trans (a b c : List Char)
    (hab : charListLe a b = true) (hbc : charListLe b c = true) :
    charListLe a c = true := by
  induction a generalizing b c with
  | nil => rfl
  | cons x xs ih =>
    cases b with
    | nil => simp [charListLe] at hab
    | cons y ys =>
      cases c with
      | nil => simp [charListLe] at hbc
      | cons z zs =>
        simp only [charListLe] at hab hbc ⊢
        split_ifs at hab hbc ⊢ <;> try omega
        all_goals (first | rfl | exact ih ys zs hab hbc)

/-- Membership after insertion: the inserted key or an original
element. -/
theorem mem_insertSortedStr (k y : String) (l : List String)
    (hy : y ∈ insertSortedStr k l) : y = k ∨ y ∈ l := by
  induction l with
  | nil => simpa [insertSortedStr] using hy
  | cons z zs ih =>
    rw [insertSortedStr] at hy
    by_cases hz : strLe k z = true
    · rw [if_pos hz] at hy
      rcases List.mem_cons.mp hy with rfl | hy
      · exact Or.inl rfl
      · exact Or.inr hy
    · rw [if_neg hz] at hy
      rcases List.mem_cons.mp hy with rfl | hy
      · exact Or.inr (List.mem_cons_self _ _)
      · rcases ih hy with rfl | hmem
        · exact Or.inl rfl
        · exact Or.inr (List.mem_cons_of_mem _ hmem)

/-- Inserting a key into a sorted list keeps it sorted. -/
theorem sorted_insertSortedStr (k : String) (l : List String)
    (h : l.Sorted (fun a b => strLe a b = true)) :
    (insertSortedStr k l).Sorted (fun a b => strLe a b = true) := by
  induction l with
  | nil => simp [insertSortedStr]
  | cons x xs ih =>
    rw [insertSortedStr]
    by_cases hk : strLe k x = true
    · rw [if_pos hk]
      refine List.Pairwise.cons ?_ h
      intro y hy
      rcases List.mem_cons.mp hy with rfl | hy
      · exact hk
      · exact charListLe_trans _ _ _ hk ((List.sorted_cons.mp h).1 y hy)
    · rw [if_neg hk]
      have hxk : strLe x k = true := by
        rcases charListLe_total k.data x.data with ht | ht
        · exact absurd ht hk
        · exact ht
      rw [List.sorted_cons] at h
      refine List.Pairwise.cons ?_ (ih h.2)
      intro y hy
      rcases mem_insertSortedStr k y xs hy with rfl | hmem
      · exact hxk
      · exact h.1 y hmem

/-- The key sort produces a sorted list. -/
theorem sorted_sortStr (l : List String) :
    (sortStr l).Sorted (fun a b => strLe a b = true) := by
  induction l with
  | nil => simp [sortStr]
  | cons x xs ih => exact sorted_insertSortedStr x _ ih

/-- C7: with no additive query parameters `buildURL` returns the parsed
base unchanged, raw query string verbatim; with additive parameters it
re-encodes the base's parsed query with every additive pair appended
after it; appending keeps every existing key's values and adds the
additive ones behind them; and the encoding's key sequence is sorted. -/
theorem c7_url_composition :
    (∀ r : Request, r.query = [] → r.buildURL = urlParse r.url)
  ∧ (∀ r : Request, r.query ≠ [] →
       r.buildURL = { urlParse r.url with
                      rawQuery := encodeQuery ((urlParse r.url).query ++ r.query) })
  ∧ (∀ (base additive : Values) (k : String),
       getVals (base ++ additive) k = getVals base k ++ getVals additive k)
  ∧ (∀ q : Values, List.Sorted (fun a b => strLe a b = true) (encKeys q)) := by
  refine ⟨?_, ?_, ?_, ?_⟩
  · intro r hq
    simp [Request.buildURL, hq]
  · intro r hq
    rw [Request.buildURL]
    rw [if_neg (by simpa [List.isEmpty_iff] using hq), foldl_qAdd]
  · intro base additive k
    simp [getVals, List.filterMap_append]
  · intro q
    exact sorted_sortStr (qKeys q)

/-- C7 witness: base `?a=1` with additive pairs a↦3, b↦2 composes to
`a=1&a=3&b=2`; key `a` keeps value "1" and gains "3", key `b` gets
"2". -/
theorem c7_url_composition_witness :
    (newRequest "GET" "http://h/p?a=1" [Opt.withQuery [("a", "3"), ("b", "2")]]).buildURL
        = { base := "http://h/p", rawQuery := "a=1&a=3&b=2" }
  ∧ getVals ((urlParse "http://h/p?a=1").query
        ++ (newRequest "GET" "http://h/p?a=1" [Opt.withQuery [("a", "3"), ("b", "2")]]).query) "a"
      = ["1", "3"]
  ∧ getVals ((urlParse "http://h/p?a=1").query
        ++ (newRequest "GET" "http://h/p?a=1" [Opt.withQuery [("a", "3"), ("b", "2")]]).query) "b"
      = ["2"] := by
  have h := c7_url_composition.2.1
    (newRequest "GET" "http://h/p?a=1" [Opt.withQuery [("a", "3"), ("b", "2")]]) (by decide)
  exact ⟨h.trans (by decide), by decide, by decide⟩

/-- After `Set`, a key holds exactly the single value just set. -/
theorem hValues_hSet (k v : String) (h : Headers) :
    hValues k (hSet k v h) = [v] := by
  induction h with
  | nil => simp [hValues, hSet]
  | cons p t ih =>
    by_cases hp : p.1 = k
    · simpa [hValues, hSet, hp] using ih
    · simpa [hValues, hSet, hp] using ih

/-- After `Set`, `Get` on the key returns the value just set. -/
theorem hGet_hSet (k v : String) (h : Headers) :
    hGet k (hSet k v h) = v := by
  induction h with
  | nil => simp [hGet, hSet]
  | cons p t ih =>
    by_cases hp : p.1 = k
    · simpa [hGet, hSet, hp] using ih
    · simpa [hGet, hSet, hp] using ih

/-- C8: on a builder without a pending error, the JSON body option sets
Content-Type to application/json only when `Get` finds none, leaves the
header map untouched when a Content-Type is already present, while the
form body option overwrites Content-Type unconditionally. -/
theorem c8_content_type_asymmetry (r : Request) (b : String)
    (vs : List (String × String)) (herr : r.err = none) :
    (hGet "Content-Type" (r.headers.getD []) = "" →
       hGet "Content-Type" ((applyOpt (.withJSON (.ok b)) r).headers.getD [])
         = "application/json")
  ∧ (hGet "Content-Type" (r.headers.getD []) ≠ "" →
       (applyOpt (.withJSON (.ok b)) r).headers = some (r.headers.getD [])
       ∧ hGet "Content-Type" ((applyOpt (.withJSON (.ok b)) r).headers.getD [])
           = hGet "Content-Type" (r.headers.getD []))
  ∧ hGet "Content-Type" ((applyOpt (.withForm vs) r).headers.getD [])
      = "application/x-www-form-urlencoded" := by
  refine ⟨?_, ?_, ?_⟩
  · intro hct
    simp [applyOpt, herr, hct, hGet_hSet]
  · intro hct
    simp [applyOpt, herr, hct]
  · simp [applyOpt, herr, hGet_hSet]

/-- C8 witness: a caller-supplied text/plain Content-Type survives the
JSON option, a fresh builder gets application/json from it, and the form
option overwrites text/plain. -/
theorem c8_content_type_asymmetry_witness :
    hGet "Content-Type" ((applyOpt (.withJSON (.ok "x"))
        (newRequest "POST" "u" [.withHeader "Content-Type" "text/plain"])).headers.getD [])
      = "text/plain"
  ∧ hGet "Content-Type" ((applyOpt (.withJSON (.ok "x"))
        (newRequest "POST" "u" [])).headers.getD [])
      = "application/json"
  ∧ hGet "Content-Type" ((applyOpt (.withForm [("a", "1")])
        (newRequest "POST" "u" [.withHeader "Content-Type" "text/plain"])).headers.getD [])
      = "application/x-www-form-urlencoded" :=
  ⟨(((c8_content_type_asymmetry
        (newRequest "POST" "u" [.withHeader "Content-Type" "text/plain"]) "x" [("a", "1")]
        (by decide)).2.1 (by decide)).2).trans (by decide),
   (c8_content_type_asymmetry (newRequest "POST" "u" []) "x" [("a", "1")]
        (by decide)).1 (by decide),
   (c8_content_type_asymmetry
        (newRequest "POST" "u" [.withHeader "Content-Type" "text/plain"]) "x" [("a", "1")]
        (by decide)).2.2⟩

/-- C9: a session call folds the session defaults first and the per-call
options after them over a fresh builder; header setting overwrites by
key, so applying header(K, a) then header(K, b) leaves exactly the one
value b under K from any starting state — in particular a per-call
header overrides a same-key session default. -/
theorem c9_session_fold_order_header_override :
    (∀ (net : Transport) (defaults : List Opt) (method rawURL : String) (opts : List Opt),
       sessionDispatch net defaults method rawURL opts
         = doDispatch net method rawURL (defaults ++ opts))
  ∧ (∀ (r : Request) (K a b : String),
       hValues K ((applyOpt (.withHeader K b)
           (applyOpt (.withHeader K a) r)).headers.getD []) = [b])
  ∧ (∀ (method rawURL K v1 v2 : String),
       hValues K ((newRequest method rawURL
           ([.withHeader K v1] ++ [.withHeader K v2])).headers.getD []) = [v2]) := by
  refine ⟨fun _ _ _ _ _ => rfl, ?_, ?_⟩
  · intro r K a b
    simp [applyOpt, hValues_hSet]
  · intro method rawURL K v1 v2
    simp [newRequest, applyOpt, hValues_hSet]

/-- Requests whose images under the flag-erasing projection agree differ
at most in the gzip flag. -/
theorem eq_of_eraseDG_eq (x y : Request) (h : eraseDG x = eraseDG y) :
    y = { x with decompressGzip := y.decompressGzip } := by
  cases x; cases y
  simp_all [eraseDG, Request.mk.injEq]

/-- No option reads the gzip flag: option application commutes with
erasing it. -/
theorem applyOpt_dg_invariant (o : Opt) (r : Request) (b : Bool) :
    eraseDG (applyOpt o { r with decompressGzip := b }) = eraseDG (applyOpt o r) := by
  cases o with
  | withJSON m =>
    cases m <;> simp only [applyOpt, eraseDG] <;> split_ifs <;> rfl
  | withProxy p =>
    cases p <;> simp only [applyOpt, eraseDG] <;> split_ifs <;> rfl
  | withForm vs =>
    simp only [applyOpt, eraseDG]
    split_ifs <;> rfl
  | _ => rfl

/-- Option folding preserves agreement-up-to-the-gzip-flag. -/
theorem foldOpts_erase_congr (l : List Opt) (x y : Request)
    (h : eraseDG x = eraseDG y) :
    eraseDG (l.foldl (fun r o => applyOpt o r) x)
      = eraseDG (l.foldl (fun r o => applyOpt o r) y) := by
  induction l generalizing x y with
  | nil => simpa using h
  | cons o t ih =>
    rw [List.foldl_cons, List.foldl_cons]
    refine ih _ _ ?_
    rw [eq_of_eraseDG_eq x y h]
    exact (applyOpt_dg_invariant o x y.decompressGzip).symm

/-- Dispatch never reads the gzip flag. -/
theorem dispatchReq_eraseDG (net : Transport) (r : Request) :
    dispatchReq net (eraseDG r) = dispatchReq net r := rfl

/-- C10: the gzip-decompression flag is write-only — the option only
sets the field, and inserting it anywhere in an option sequence leaves
the entire dispatch result (outbound request, transport configuration,
response wrapper) unchanged. -/
theorem c10_decompress_flag_write_only :
    (∀ r : Request, applyOpt .withDecompressGzip r = { r with decompressGzip := true })
  ∧ (∀ (net : Transport) (method rawURL : String) (pre post : List Opt),
       doDispatch net method rawURL (pre ++ .withDecompressGzip :: post)
         = doDispatch net method rawURL (pre ++ post)) := by
  refine ⟨fun r => rfl, ?_⟩
  intro net method rawURL pre post
  unfold doDispatch newRequest
  rw [List.foldl_append, List.foldl_append, List.foldl_cons]
  have h2 := foldOpts_erase_congr post
    (applyOpt .withDecompressGzip
      (pre.foldl (fun r o => applyOpt o r) { method := method, url := rawURL }))
    (pre.foldl (fun r o => applyOpt o r) { method := method, url := rawURL })
    rfl
  calc dispatchReq net (post.foldl (fun r o => applyOpt o r)
          (applyOpt .withDecompressGzip
            (pre.foldl (fun r o => applyOpt o r) { method := method, url := rawURL })))
      = dispatchReq net (eraseDG (post.foldl (fun r o => applyOpt o r)
          (applyOpt .withDecompressGzip
            (pre.foldl (fun r o => applyOpt o r) { method := method, url := rawURL })))) :=
        (dispatchReq_eraseDG net _).symm
    _ = dispatchReq net (eraseDG (post.foldl (fun r o => applyOpt o r)
          (pre.foldl (fun r o => applyOpt o r) { method := method, url := rawURL }))) := by
        rw [h2]
    _ = dispatchReq net (post.foldl (fun r o => applyOpt o r)
          (pre.foldl (fun r o => applyOpt o r) { method := method, url := rawURL })) :=
        dispatchReq_eraseDG net _

end GoRequests
